import Mathlib

/-!
Verification of the venture-sight backend against its specification.

The definitions below are a shallow embedding of the Python sources under
`src/backend`.  Python dictionaries coming back from the LLM are modelled by
explicit structures, machine floats by `ℚ` (only order comparisons and a
multiplication by 10 occur, which are exact in both), the Supabase tables by
lists of records, and the external collaborators (LLM completion, embedding,
web search, hashing, the vector RPC) by explicit oracle parameters.  Fallible
steps are modelled with `Option`/`Except`/`Bool` outcomes mirroring the
`try/except` structure of the source.
-/

/-- The raw `final_score` field of the JSON object returned by the Consensus
agent, as seen by `council_service._run_consensus` (src/backend/services/
council_service.py, lines 259-278).  `absent` models a missing key (Python
`result.get("final_score", 0)` then yields `0`), `parsed q` a value that
`float(...)` converts to the number `q`, and `unparseable` a present value on
which `float(...)` raises (the surrounding `try` then leaves the result
untouched). -/
inductive FSVal where
  | absent : FSVal
  | parsed : ℚ → FSVal
  | unparseable : FSVal
deriving DecidableEq, Repr

/-- `float(result.get("final_score", 0))` as an optional rational: `none`
models the `except` branch (a present but non-numeric value). -/
def floatOfFS : FSVal → Option ℚ
  | FSVal.absent => some 0
  | FSVal.parsed q => some q
  | FSVal.unparseable => none

/-- The JSON object returned by the Consensus agent, restricted to the fields
the orchestration code reads: `final_score`, `recommendation` and `crm_data`
(a string-keyed dictionary, modelled as an association list). -/
structure ConsensusResult where
  final_score : FSVal
  recommendation : Option String
  crm_data : List (String × String)
deriving DecidableEq, Repr

/-- The score-normalization step of `_run_consensus` (council_service.py,
lines 264-268): a raw aggregate in `(0, 10]` is treated as a 1-10 scale and
multiplied by 10, anything else is left unchanged. -/
def normalizeScore (s : ℚ) : ℚ :=
  if 0 < s ∧ s ≤ 10 then s * 10 else s

/-- The forced-recommendation block of `_run_consensus` (council_service.py,
lines 259-278).  It parses `final_score` (default 0), normalizes it, writes
the normalized score back only when normalization fired, and overwrites
`recommendation` from the thresholds 60 and 80.  When `float(...)` raises,
the inner `except` leaves the model's object unchanged. -/
def forceRecommendation (r : ConsensusResult) : ConsensusResult :=
  match floatOfFS r.final_score with
  | none => r
  | some s =>
    let s1 := normalizeScore s
    let fs1 := if 0 < s ∧ s ≤ 10 then FSVal.parsed s1 else r.final_score
    let rec1 := if s1 < 60 then "Pass" else if s1 < 80 then "Consider" else "Invest"
    { r with final_score := fs1, recommendation := some rec1 }

example :
    forceRecommendation ⟨FSVal.parsed 7, some "Invest", []⟩ =
      ⟨FSVal.parsed 70, some "Consider", []⟩ := by
  norm_num [forceRecommendation, floatOfFS, normalizeScore]

example :
    forceRecommendation ⟨FSVal.absent, some "Invest", []⟩ =
      ⟨FSVal.absent, some "Pass", []⟩ := by
  decide

example :
    forceRecommendation ⟨FSVal.parsed 85, some "Pass", []⟩ =
      ⟨FSVal.parsed 85, some "Invest", []⟩ := by
  decide

/-- C1: for every consensus result whose `final_score` field parses as a
number (or is absent, defaulting to 0), the recommendation stored by
`_run_consensus` is derived from the final normalized score — below 60
"Pass", in [60, 80) "Consider", at least 80 "Invest" — overriding whatever
recommendation string the model returned, and the stored `final_score` is
exactly the normalized score. -/
theorem consensus_recommendation_thresholds (r : ConsensusResult) (q : ℚ)
    (h : floatOfFS r.final_score = some q) :
    floatOfFS (forceRecommendation r).final_score = some (normalizeScore q) ∧
    (normalizeScore q < 60 → (forceRecommendation r).recommendation = some "Pass") ∧
    (60 ≤ normalizeScore q → normalizeScore q < 80 →
      (forceRecommendation r).recommendation = some "Consider") ∧
    (80 ≤ normalizeScore q → (forceRecommendation r).recommendation = some "Invest") := by
  have hfs : floatOfFS (forceRecommendation r).final_score = some (normalizeScore q) := by
    simp only [forceRecommendation, h]
    split_ifs with h1
    · simp [floatOfFS]
    · rw [normalizeScore, if_neg h1]
      exact h
  have hrec : (forceRecommendation r).recommendation =
      some (if normalizeScore q < 60 then "Pass"
            else if normalizeScore q < 80 then "Consider" else "Invest") := by
    simp only [forceRecommendation, h]
  refine ⟨hfs, ?_, ?_, ?_⟩
  · intro h1
    rw [hrec, if_pos h1]
  · intro h1 h2
    rw [hrec, if_neg (not_lt.mpr h1), if_pos h2]
  · intro h1
    rw [hrec, if_neg (not_lt.mpr (by linarith)), if_neg (not_lt.mpr h1)]

/-- Witness for C1: the model returns raw score 7 with recommendation
"Invest"; the stored score is the normalized 70 and the stored
recommendation is "Consider". -/
theorem consensus_recommendation_thresholds_witness :
    (forceRecommendation ⟨FSVal.parsed 7, some "Invest", []⟩).recommendation =
      some "Consider" := by
  have h := consensus_recommendation_thresholds ⟨FSVal.parsed 7, some "Invest", []⟩ 7 rfl
  exact h.2.2.1 (by norm_num [normalizeScore]) (by norm_num [normalizeScore])

/-- C2: for every raw aggregate score `q` returned by the consensus model as
`final_score`, if `q` lies in `(0, 10]` the stored `final_score` is `q * 10`,
and if `q` lies in `(10, 100]` it is stored unchanged. -/
theorem consensus_score_normalization (r : ConsensusResult) (q : ℚ)
    (h : r.final_score = FSVal.parsed q) :
    (0 < q → q ≤ 10 → (forceRecommendation r).final_score = FSVal.parsed (q * 10)) ∧
    (10 < q → q ≤ 100 → (forceRecommendation r).final_score = FSVal.parsed q) := by
  simp only [forceRecommendation, h, floatOfFS]
  constructor
  · intro ha hb
    rw [if_pos ⟨ha, hb⟩, normalizeScore, if_pos ⟨ha, hb⟩]
  · intro ha hb
    have hn : ¬(0 < q ∧ q ≤ 10) := by
      rintro ⟨h1, h2⟩
      linarith
    rw [if_neg hn]

/-- Witness for C2: raw score 7 is stored as 70, raw score 55 is stored
unchanged. -/
theorem consensus_score_normalization_witness :
    (forceRecommendation ⟨FSVal.parsed 7, none, []⟩).final_score =
        FSVal.parsed (7 * 10) ∧
    (forceRecommendation ⟨FSVal.parsed 55, none, []⟩).final_score =
        FSVal.parsed 55 := by
  constructor
  · exact (consensus_score_normalization ⟨FSVal.parsed 7, none, []⟩ 7 rfl).1
      (by norm_num) (by norm_num)
  · exact (consensus_score_normalization ⟨FSVal.parsed 55, none, []⟩ 55 rfl).2
      (by norm_num) (by norm_num)

/-- A row of the `pitch_decks` table, restricted to the columns the verified
code paths read or write (src/backend/services/pdf_service.py). -/
structure DeckRec where
  id : Nat
  user_id : String
  filename : String
  startup_name : String
  raw_text : String
  status : String
  content_hash : String
  match_score : FSVal
  crm_data : List (String × String)
deriving DecidableEq, Repr

/-- A row of the `council_analyses` table (council_service._save_analysis). -/
structure AnalysisRec where
  deck_id : Nat
  optimist_analysis : String
  skeptic_analysis : String
  quant_analysis : String
  consensus : ConsensusResult
deriving DecidableEq, Repr

/-- The storage and scheduling state: the two tables the claims touch, the
fresh-id counter used for inserts, and the queues of initiated background
work (deck ids handed to `rag_service.ingest_deck`, and deck ids whose
council analysis was scheduled). -/
structure Db where
  pitch_decks : List DeckRec
  council_analyses : List AnalysisRec
  nextId : Nat
  ragTasks : List Nat
  analysisTasks : List Nat
deriving DecidableEq, Repr

/-- The external collaborators of the upload path, as oracle parameters:
`hashBytes`/`hashText` model `hashlib.sha256(...).hexdigest()`,
`extractText` models `extract_text_from_pdf`, `chooseName` the combination
of `extraction_service.extract_metadata(...)['startup_name']` with the
`_extract_startup_name` heuristic fallback in `upload_deck`, `metaCrm` the
CRM dictionary built from the extracted metadata, `metaNameFromText` the
`startup_name` field extracted in `upload_deck_from_text` (with `none` also
covering an extraction exception, which yields `metadata = {}`), and
`fallbackNameFromFilename` the filename-derived default name. -/
structure UploadEnv where
  hashBytes : List Nat → String
  hashText : String → String
  extractText : List Nat → String
  chooseName : String → String → String
  metaCrm : String → List (String × String)
  metaNameFromText : String → Option String
  fallbackNameFromFilename : String → String

/-- The duplicate-content lookup of `upload_deck`/`upload_deck_from_text`:
rows of `pitch_decks` with this owner and content fingerprint. -/
def dupPred (u h : String) (d : DeckRec) : Bool :=
  d.user_id == u && d.content_hash == h

/-- The name-based lookup: same owner, same startup name, not archived. -/
def namePred (u n : String) (d : DeckRec) : Bool :=
  d.user_id == u && d.startup_name == n && d.status != "archived"

/-- The `deck_data` dictionary of `upload_deck`/`upload_deck_from_text`
applied as an insert: a fresh-id row with status `pending`. -/
def pendingRec (db : Db) (u fn name raw h : String)
    (crm : List (String × String)) : DeckRec :=
  { id := db.nextId, user_id := u, filename := fn, startup_name := name,
    raw_text := raw, status := "pending", content_hash := h,
    match_score := FSVal.absent, crm_data := crm }

/-- The `deck_data` dictionary applied as an update of an existing row `m`
(columns not in the dictionary, such as `match_score`, are kept). -/
def updatedRec (m : DeckRec) (u fn name raw h : String)
    (crm : List (String × String)) : DeckRec :=
  { m with user_id := u, filename := fn, startup_name := name,
           raw_text := raw, status := "pending", content_hash := h,
           crm_data := crm }

/-- State change of `supabase.table("pitch_decks").insert(deck_data)`
followed by RAG ingestion of the new row. -/
def insertDb (db : Db) (r : DeckRec) : Db :=
  { db with pitch_decks := db.pitch_decks ++ [r], nextId := db.nextId + 1,
            ragTasks := db.ragTasks ++ [db.nextId] }

/-- State change of `.update(deck_data).eq("id", mid)` followed by RAG
ingestion of the updated row. -/
def updateDb (db : Db) (mid : Nat) (r : DeckRec) : Db :=
  { db with
      pitch_decks := db.pitch_decks.map (fun d => if d.id == mid then r else d),
      ragTasks := db.ragTasks ++ [mid] }

/-- `pdf_service.upload_deck` (pdf_service.py, lines 153-277).  Returns the
new state, the returned record, and the number of processing passes (text
plus metadata extraction) performed: 0 when the content fingerprint
short-circuits to an existing record, 1 otherwise. -/
def upload_deck (env : UploadEnv) (db : Db) (u fn : String) (b : List Nat) :
    Db × Option DeckRec × Nat :=
  let h := env.hashBytes b
  match db.pitch_decks.filter (dupPred u h) with
  | d :: _ => (db, some d, 0)
  | [] =>
    let raw := env.extractText b
    let name := env.chooseName raw fn
    let crm := env.metaCrm raw
    match db.pitch_decks.filter (namePred u name) with
    | m :: _ =>
      (updateDb db m.id (updatedRec m u fn name raw h crm),
       some (updatedRec m u fn name raw h crm), 1)
    | [] =>
      (insertDb db (pendingRec db u fn name raw h crm),
       some (pendingRec db u fn name raw h crm), 1)

/-- Python's `a or b` for an optional string `a`: an absent or empty string
falls through to the default. -/
def pyOrStr (a : Option String) (b : String) : String :=
  match a with
  | some s => if s == "" then b else s
  | none => b

/-- `pdf_service.upload_deck_from_text` (pdf_service.py, lines 402-498).
Note the order of operations in the source: metadata extraction runs first
(always one processing pass, counted in the third component), and only then
is the content fingerprint checked. -/
def upload_deck_from_text (env : UploadEnv) (db : Db) (u fn raw : String)
    (nameArg : Option String) : Db × Option DeckRec × Nat :=
  let metaName := env.metaNameFromText raw
  let name := pyOrStr nameArg (pyOrStr metaName (env.fallbackNameFromFilename fn))
  let h := env.hashText raw
  let crm := env.metaCrm raw
  match db.pitch_decks.filter (dupPred u h) with
  | d :: _ => (db, some d, 1)
  | [] =>
    match db.pitch_decks.filter (namePred u name) with
    | m :: _ =>
      (updateDb db m.id (updatedRec m u fn name raw h crm),
       some (updatedRec m u fn name raw h crm), 1)
    | [] =>
      (insertDb db (pendingRec db u fn name raw h crm),
       some (pendingRec db u fn name raw h crm), 1)

theorem filterFalseNil (p : DeckRec → Bool) (l : List DeckRec)
    (h : ∀ x ∈ l, p x = false) : l.filter p = [] := by
  induction l with
  | nil => rfl
  | cons x xs ih =>
    rw [List.filter_cons, h x (List.mem_cons_self x xs)]
    exact ih (fun y hy => h y (List.mem_cons_of_mem x hy))

theorem filterAppendSingleton (p : DeckRec → Bool) (l : List DeckRec) (d : DeckRec)
    (hall : ∀ x ∈ l, p x = false) (hd : p d = true) :
    (l ++ [d]).filter p = [d] := by
  rw [List.filter_append, filterFalseNil p l hall, List.filter_cons, hd]
  rfl

theorem mapUntouched (l : List DeckRec) (m upd : DeckRec)
    (h : ∀ x ∈ l, (x.id == m.id) = false) :
    l.map (fun d => if d.id == m.id then upd else d) = l := by
  induction l with
  | nil => rfl
  | cons x xs ih =>
    rw [List.map_cons, h x (List.mem_cons_self x xs),
      ih (fun y hy => h y (List.mem_cons_of_mem x hy))]
    simp

theorem filterUpdateSingleton (p : DeckRec → Bool) (l : List DeckRec) (m upd : DeckRec)
    (hnd : (l.map DeckRec.id).Nodup) (hm : m ∈ l)
    (hall : ∀ x ∈ l, p x = false) (hupd : p upd = true) :
    (l.map (fun d => if d.id == m.id then upd else d)).filter p = [upd] := by
  induction l with
  | nil => exact absurd hm (List.not_mem_nil m)
  | cons x xs ih =>
    rw [List.map_cons] at hnd
    have hnd1 : x.id ∉ xs.map DeckRec.id := (List.nodup_cons.mp hnd).1
    have hnd2 : (xs.map DeckRec.id).Nodup := (List.nodup_cons.mp hnd).2
    have hallx : p x = false := hall x (List.mem_cons_self x xs)
    have halls : ∀ y ∈ xs, p y = false := fun y hy => hall y (List.mem_cons_of_mem x hy)
    by_cases hx : x.id = m.id
    · have hids : ∀ y ∈ xs, (y.id == m.id) = false := by
        intro y hy
        cases hb : (y.id == m.id) with
        | false => rfl
        | true =>
          exact absurd (by rw [hx, ← eq_of_beq hb]; exact List.mem_map_of_mem DeckRec.id hy) hnd1
      have hxb : (x.id == m.id) = true := by
        rw [hx]
        exact beq_self_eq_true m.id
      rw [List.map_cons, mapUntouched xs m upd hids]
      simp [hxb, List.filter_cons, hupd, filterFalseNil p xs halls]
    · have hxb : (x.id == m.id) = false := by
        cases hb : (x.id == m.id) with
        | false => rfl
        | true => exact absurd (eq_of_beq hb) hx
      have hmx : m ∈ xs := by
        rcases List.mem_cons.mp hm with he | hxs
        · exact absurd (congrArg DeckRec.id he.symm) hx
        · exact hxs
      rw [List.map_cons]
      simp [hxb, List.filter_cons, hallx]
      simpa using ih hnd2 hmx halls

/-- A concrete oracle environment for witnesses and counterexamples. -/
def exEnv : UploadEnv :=
  { hashBytes := fun b => toString b.length
    hashText := fun t => t
    extractText := fun _ => "Acme pitch deck"
    chooseName := fun _ _ => "Acme"
    metaCrm := fun _ => []
    metaNameFromText := fun _ => some "Acme"
    fallbackNameFromFilename := fun _ => "Acme" }

/-- An empty initial storage state. -/
def exDb0 : Db := ⟨[], [], 1, [], []⟩

/-- Counterexample to C3 as stated.  The claim asserts that the second
identical upload "performs no new insert and no re-processing".  In
`upload_deck_from_text` the metadata extraction pass runs before the
content-fingerprint lookup, so the second identical upload re-runs it: the
processing-pass count of the second call is 1, not 0, even though the call
does return the stored record with no state change. -/
theorem upload_dedup_counterexample :
    (upload_deck_from_text exEnv
        (upload_deck_from_text exEnv exDb0 "u1" "a.txt" "deck text" none).1
        "u1" "a.txt" "deck text" none).2.2 = 1 ∧
    (upload_deck_from_text exEnv
        (upload_deck_from_text exEnv exDb0 "u1" "a.txt" "deck text" none).1
        "u1" "a.txt" "deck text" none).1 =
      (upload_deck_from_text exEnv exDb0 "u1" "a.txt" "deck text" none).1 ∧
    (upload_deck_from_text exEnv exDb0 "u1" "a.txt" "deck text" none).2.2 = 1 := by
  exact ⟨rfl, rfl, rfl⟩

/-- C3 (amended): for every owner and byte content, uploading identical
content twice yields exactly one stored Document row; the second call
detects the matching content fingerprint, performs no insert or update, and
returns the stored record unchanged.  For `upload_deck` the second call
also performs no processing pass (count 0); for `upload_deck_from_text` the
second call re-runs the metadata extraction pass (count 1) before
short-circuiting, because extraction precedes the fingerprint lookup there.
Hypotheses: row ids are unique (primary key) and no row for this owner and
fingerprint exists yet. -/
theorem upload_dedup_amended :
    (∀ (env : UploadEnv) (db : Db) (u fn1 fn2 : String) (b : List Nat),
      (db.pitch_decks.map DeckRec.id).Nodup →
      (∀ d ∈ db.pitch_decks, dupPred u (env.hashBytes b) d = false) →
      ∃ db1 d1,
        upload_deck env db u fn1 b = (db1, some d1, 1) ∧
        db1.pitch_decks.filter (dupPred u (env.hashBytes b)) = [d1] ∧
        upload_deck env db1 u fn2 b = (db1, some d1, 0)) ∧
    (∀ (env : UploadEnv) (db : Db) (u fn1 fn2 raw : String) (na1 na2 : Option String),
      (db.pitch_decks.map DeckRec.id).Nodup →
      (∀ d ∈ db.pitch_decks, dupPred u (env.hashText raw) d = false) →
      ∃ db1 d1,
        upload_deck_from_text env db u fn1 raw na1 = (db1, some d1, 1) ∧
        db1.pitch_decks.filter (dupPred u (env.hashText raw)) = [d1] ∧
        upload_deck_from_text env db1 u fn2 raw na2 = (db1, some d1, 1)) := by
  constructor
  · intro env db u fn1 fn2 b hnd hall
    have h0 : db.pitch_decks.filter (dupPred u (env.hashBytes b)) = [] :=
      filterFalseNil _ _ hall
    cases hf : db.pitch_decks.filter
        (namePred u (env.chooseName (env.extractText b) fn1)) with
    | nil =>
      have hfil : ((insertDb db (pendingRec db u fn1
            (env.chooseName (env.extractText b) fn1) (env.extractText b)
            (env.hashBytes b) (env.metaCrm (env.extractText b)))).pitch_decks).filter
            (dupPred u (env.hashBytes b)) =
          [pendingRec db u fn1 (env.chooseName (env.extractText b) fn1)
            (env.extractText b) (env.hashBytes b)
            (env.metaCrm (env.extractText b))] :=
        filterAppendSingleton _ _ _ hall (by simp [dupPred, pendingRec])
      refine ⟨_, _, ?_, hfil, ?_⟩
      · simp only [upload_deck, h0, hf]
      · simp only [upload_deck, hfil]
    | cons m rest =>
      have hm : m ∈ db.pitch_decks :=
        List.mem_of_mem_filter (hf ▸ List.mem_cons_self m rest)
      have hfil : ((updateDb db m.id (updatedRec m u fn1
            (env.chooseName (env.extractText b) fn1) (env.extractText b)
            (env.hashBytes b) (env.metaCrm (env.extractText b)))).pitch_decks).filter
            (dupPred u (env.hashBytes b)) =
          [updatedRec m u fn1 (env.chooseName (env.extractText b) fn1)
            (env.extractText b) (env.hashBytes b)
            (env.metaCrm (env.extractText b))] :=
        filterUpdateSingleton _ _ _ _ hnd hm hall (by simp [dupPred, updatedRec])
      refine ⟨_, _, ?_, hfil, ?_⟩
      · simp only [upload_deck, h0, hf]
      · simp only [upload_deck, hfil]
  · intro env db u fn1 fn2 raw na1 na2 hnd hall
    have h0 : db.pitch_decks.filter (dupPred u (env.hashText raw)) = [] :=
      filterFalseNil _ _ hall
    cases hf : db.pitch_decks.filter
        (namePred u (pyOrStr na1 (pyOrStr (env.metaNameFromText raw)
          (env.fallbackNameFromFilename fn1)))) with
    | nil =>
      have hfil : ((insertDb db (pendingRec db u fn1
            (pyOrStr na1 (pyOrStr (env.metaNameFromText raw)
              (env.fallbackNameFromFilename fn1))) raw
            (env.hashText raw) (env.metaCrm raw))).pitch_decks).filter
            (dupPred u (env.hashText raw)) =
          [pendingRec db u fn1 (pyOrStr na1 (pyOrStr (env.metaNameFromText raw)
            (env.fallbackNameFromFilename fn1))) raw
            (env.hashText raw) (env.metaCrm raw)] :=
        filterAppendSingleton _ _ _ hall (by simp [dupPred, pendingRec])
      refine ⟨_, _, ?_, hfil, ?_⟩
      · simp only [upload_deck_from_text, h0, hf]
      · simp only [upload_deck_from_text, hfil]
    | cons m rest =>
      have hm : m ∈ db.pitch_decks :=
        List.mem_of_mem_filter (hf ▸ List.mem_cons_self m rest)
      have hfil : ((updateDb db m.id (updatedRec m u fn1
            (pyOrStr na1 (pyOrStr (env.metaNameFromText raw)
              (env.fallbackNameFromFilename fn1))) raw
            (env.hashText raw) (env.metaCrm raw))).pitch_decks).filter
            (dupPred u (env.hashText raw)) =
          [updatedRec m u fn1 (pyOrStr na1 (pyOrStr (env.metaNameFromText raw)
            (env.fallbackNameFromFilename fn1))) raw
            (env.hashText raw) (env.metaCrm raw)] :=
        filterUpdateSingleton _ _ _ _ hnd hm hall (by simp [dupPred, updatedRec])
      refine ⟨_, _, ?_, hfil, ?_⟩
      · simp only [upload_deck_from_text, h0, hf]
      · simp only [upload_deck_from_text, hfil]

/-- Witness for the amended C3 at a concrete owner, content and empty
store. -/
theorem upload_dedup_amended_witness :
    ∃ db1 d1,
      upload_deck exEnv exDb0 "u1" "a.pdf" [7, 7] = (db1, some d1, 1) ∧
      db1.pitch_decks.filter (dupPred "u1" (exEnv.hashBytes [7, 7])) = [d1] ∧
      upload_deck exEnv db1 "u1" "b.pdf" [7, 7] = (db1, some d1, 0) := by
  exact upload_dedup_amended.1 exEnv exDb0 "u1" "a.pdf" "b.pdf" [7, 7]
    (by decide) (by decide)

/-- `pdf_service.get_deck`: a `.single()` row fetch by deck id and owner;
errors (hence `None`) unless exactly one row matches. -/
def get_deck (db : Db) (i : Nat) (u : String) : Option DeckRec :=
  match db.pitch_decks.filter (fun d => d.id == i && d.user_id == u) with
  | [d] => some d
  | _ => none

/-- `pdf_service.update_deck_status`: set `status` and, when given,
`match_score` on every row with this id. -/
def update_deck_status (db : Db) (i : Nat) (st : String) (ms : Option FSVal) : Db :=
  { db with pitch_decks := db.pitch_decks.map (fun d =>
      if d.id == i then
        { d with status := st, match_score := ms.getD d.match_score }
      else d) }

/-- The response model of `POST /api/council/analyze/(deck_id)`. -/
structure TriggerResp where
  deck_id : Nat
  message : String
  status : String
deriving DecidableEq, Repr

/-- `council.trigger_analysis` (src/backend/api/council.py, lines 41-81):
404 when the deck is missing; a no-op response when the deck is already
`analyzing`; otherwise set the status to `analyzing` and queue the
background analysis run. -/
def trigger_analysis (db : Db) (i : Nat) (u : String) :
    Except Nat (Db × TriggerResp) :=
  match get_deck db i u with
  | none => Except.error 404
  | some deck =>
    if deck.status == "analyzing" then
      Except.ok (db, ⟨i, "Analysis already in progress", "analyzing"⟩)
    else
      let db1 := update_deck_status db i "analyzing" none
      Except.ok ({ db1 with analysisTasks := db1.analysisTasks ++ [i] },
        ⟨i, "Analysis started. Poll GET /api/council/\x7bdeck_id\x7d for results.",
         "analyzing"⟩)

theorem filterMapUpdate (l : List DeckRec) (i : Nat) (u st : String)
    (ms : Option FSVal) :
    (l.map (fun d => if d.id == i then
        { d with status := st, match_score := ms.getD d.match_score } else d)).filter
      (fun d => d.id == i && d.user_id == u) =
    (l.filter (fun d => d.id == i && d.user_id == u)).map
      (fun d => { d with status := st, match_score := ms.getD d.match_score }) := by
  induction l with
  | nil => rfl
  | cons x xs ih =>
    have hpf : (((if x.id == i then
          { x with status := st, match_score := ms.getD x.match_score }
         else x) : DeckRec).id == i &&
        ((if x.id == i then
          { x with status := st, match_score := ms.getD x.match_score }
         else x) : DeckRec).user_id == u) =
        (x.id == i && x.user_id == u) := by
      by_cases h : x.id = i
      · simp [h]
      · have hb : (x.id == i) = false := by
          cases hb2 : (x.id == i) with
          | false => rfl
          | true => exact absurd (eq_of_beq hb2) h
        simp [hb]
    simp only [List.map_cons, List.filter_cons, hpf]
    cases hp : (x.id == i && x.user_id == u) with
    | true =>
      have hxi : (x.id == i) = true := by
        cases hxi2 : (x.id == i) with
        | true => rfl
        | false =>
          rw [hxi2, Bool.false_and] at hp
          exact absurd hp Bool.false_ne_true
      rw [if_pos (rfl : true = true), if_pos (rfl : true = true), if_pos hxi,
        List.map_cons, ih]
    | false =>
      rw [if_neg (Bool.false_ne_true), if_neg (Bool.false_ne_true), ih]

theorem get_deck_update_status (db : Db) (i : Nat) (u st : String)
    (ms : Option FSVal) :
    get_deck (update_deck_status db i st ms) i u =
      (get_deck db i u).map
        (fun d => { d with status := st, match_score := ms.getD d.match_score }) := by
  unfold get_deck update_deck_status
  simp only [filterMapUpdate]
  cases hfl : db.pitch_decks.filter (fun d => d.id == i && d.user_id == u) with
  | nil => rfl
  | cons d rest =>
    cases rest with
    | nil => rfl
    | cons d2 rest2 => rfl

/-- C5: triggering analysis twice in quick succession accepts exactly one
run.  From a deck that is not `analyzing`, the first trigger sets the status
to `analyzing` and queues exactly one background run; the second trigger
observes `analyzing`, changes no state and queues nothing. -/
theorem trigger_analysis_once (db : Db) (i : Nat) (u : String) (deck : DeckRec)
    (hget : get_deck db i u = some deck) (hstat : deck.status ≠ "analyzing") :
    ∃ db1,
      trigger_analysis db i u =
        Except.ok (db1,
          ⟨i, "Analysis started. Poll GET /api/council/\x7bdeck_id\x7d for results.",
           "analyzing"⟩) ∧
      db1.analysisTasks = db.analysisTasks ++ [i] ∧
      get_deck db1 i u = some { deck with status := "analyzing" } ∧
      trigger_analysis db1 i u =
        Except.ok (db1, ⟨i, "Analysis already in progress", "analyzing"⟩) := by
  have hb : (deck.status == "analyzing") = false := by
    cases hb2 : (deck.status == "analyzing") with
    | false => rfl
    | true => exact absurd (eq_of_beq hb2) hstat
  have hget1 : get_deck (update_deck_status db i "analyzing" none) i u =
      some { deck with status := "analyzing" } := by
    rw [get_deck_update_status, hget]
    rfl
  refine ⟨{ update_deck_status db i "analyzing" none with
            analysisTasks := db.analysisTasks ++ [i] }, ?_, rfl, hget1, ?_⟩
  · simp only [trigger_analysis, hget, hb]
    rfl
  · have hget2 : get_deck
        ({ update_deck_status db i "analyzing" none with
           analysisTasks := db.analysisTasks ++ [i] })
        i u = some { deck with status := "analyzing" } := hget1
    simp only [trigger_analysis, hget2]
    rfl

/-- Witness for C5: a one-deck store with status `pending`. -/
theorem trigger_analysis_once_witness :
    ∃ db1,
      trigger_analysis
          ⟨[⟨1, "u1", "a.pdf", "Acme", "txt", "pending", "h", FSVal.absent, []⟩],
           [], 2, [], []⟩ 1 "u1" =
        Except.ok (db1,
          ⟨1, "Analysis started. Poll GET /api/council/\x7bdeck_id\x7d for results.",
           "analyzing"⟩) ∧
      db1.analysisTasks = [1] ∧
      get_deck db1 1 "u1" =
        some ⟨1, "u1", "a.pdf", "Acme", "txt", "analyzing", "h", FSVal.absent, []⟩ ∧
      trigger_analysis db1 1 "u1" =
        Except.ok (db1, ⟨1, "Analysis already in progress", "analyzing"⟩) := by
  have h := trigger_analysis_once
    ⟨[⟨1, "u1", "a.pdf", "Acme", "txt", "pending", "h", FSVal.absent, []⟩],
     [], 2, [], []⟩ 1 "u1"
    ⟨1, "u1", "a.pdf", "Acme", "txt", "pending", "h", FSVal.absent, []⟩
    (by rfl) (by decide)
  exact h

/-- Modelled from the spec: `pdf_service.save_upload` is called by
`api/decks.upload_deck` (src/backend/api/decks.py, line 114) and by the
repository's tests, but its definition is not under src.  Spec section 4.1:
"Upload always produces a `pending` record immediately (fast path),
decoupled from heavy processing, so the caller is never blocked on
extraction."  It therefore only fingerprints the bytes and inserts a
`pending` row, touching none of the extraction oracles. -/
def save_upload (env : UploadEnv) (db : Db) (u fn : String) (b : List Nat) :
    Db × DeckRec :=
  let r : DeckRec :=
    { id := db.nextId, user_id := u, filename := fn, startup_name := fn,
      raw_text := "", status := "pending", content_hash := env.hashBytes b,
      match_score := FSVal.absent, crm_data := [] }
  ({ db with pitch_decks := db.pitch_decks ++ [r], nextId := db.nextId + 1 }, r)

/-- Modelled from the spec: `pdf_service.process_deck_background` is queued
by `api/decks.upload_deck` (line 124) but its definition is not under src.
Spec section 4.1: "A background step moves `pending → processing`-equivalent
work (text extraction, metadata extraction, retrieval ingestion) without a
separate externally visible state, then triggers analysis."  All extraction
oracles are consulted here and only here on the upload path. -/
def process_deck_background (env : UploadEnv) (db : Db) (i : Nat)
    (b : List Nat) : Db :=
  let raw := env.extractText b
  let db1 := { db with pitch_decks := db.pitch_decks.map (fun (d : DeckRec) =>
      if d.id == i then
        { d with raw_text := raw, startup_name := env.chooseName raw d.filename,
                 crm_data := env.metaCrm raw }
      else d) }
  { db1 with ragTasks := db1.ragTasks ++ [i], analysisTasks := db1.analysisTasks ++ [i] }

/-- Python's `str.lower()`, character-wise. -/
def pyLower (s : String) : String := ⟨s.data.map Char.toLower⟩

/-- Python's `str.endswith(suffix)`. -/
def pyEndsWith (s suffix : String) : Bool := suffix.data.isSuffixOf s.data

/-- `decks.upload_deck` route (src/backend/api/decks.py, lines 91-131):
validates the filename and the 20 MB size limit, does the fast save, and
queues the background processing task; errors are HTTP status codes.  The
returned task list models `background_tasks.add_task(...)`: queued, not yet
executed. -/
def upload_route (env : UploadEnv) (db : Db) (u fn : String) (content : List Nat) :
    Except Nat (DeckRec × Db × List (Nat × List Nat)) :=
  if fn == "" then Except.error 400
  else if !(pyEndsWith (pyLower fn) ".pdf") then Except.error 400
  else if content.length > 20 * 1024 * 1024 then Except.error 400
  else
    let res := save_upload env db u fn content
    Except.ok (res.2, res.1, [(res.2.id, content)])

/-- C4: every accepted upload request (non-empty `.pdf` filename, size
within the 20 MB limit) immediately yields a stored Document with status
`pending` and no extracted text, with the heavy processing only queued as a
background task; the route's result does not depend on the extraction
oracles at all (extraction is decoupled), only on the fingerprint oracle. -/
theorem upload_pending_fast_path (env : UploadEnv) (db : Db) (u fn : String)
    (content : List Nat) (h1 : fn ≠ "")
    (h2 : pyEndsWith (pyLower fn) ".pdf" = true)
    (h3 : content.length ≤ 20 * 1024 * 1024) :
    ∃ (d : DeckRec) (db1 : Db),
      upload_route env db u fn content = Except.ok (d, db1, [(d.id, content)]) ∧
      d.status = "pending" ∧
      d.raw_text = "" ∧
      db1.pitch_decks = db.pitch_decks ++ [d] ∧
      db1.analysisTasks = db.analysisTasks ∧
      db1.ragTasks = db.ragTasks ∧
      (∀ env2 : UploadEnv, env2.hashBytes = env.hashBytes →
        upload_route env2 db u fn content = upload_route env db u fn content) := by
  have hb1 : (fn == "") = false := by
    cases hb : (fn == "") with
    | false => rfl
    | true => exact absurd (eq_of_beq hb) h1
  have hb2 : (!(pyEndsWith (pyLower fn) ".pdf")) = false := by
    rw [h2]
    rfl
  have hb3 : (content.length > 20 * 1024 * 1024) = False := by
    simp only [eq_iff_iff, iff_false, not_lt]
    exact h3
  refine ⟨(save_upload env db u fn content).2, (save_upload env db u fn content).1,
    ?_, rfl, rfl, rfl, rfl, rfl, ?_⟩
  · simp only [upload_route, hb1, hb2, Bool.false_eq_true, if_false, hb3]
  · intro env2 henv
    simp only [upload_route, save_upload, henv]

/-- Witness for C4 at a concrete accepted request. -/
theorem upload_pending_fast_path_witness :
    ∃ (d : DeckRec) (db1 : Db),
      upload_route exEnv exDb0 "u1" "deck.pdf" [9] =
        Except.ok (d, db1, [(d.id, [9])]) ∧
      d.status = "pending" ∧
      d.raw_text = "" ∧
      db1.pitch_decks = exDb0.pitch_decks ++ [d] ∧
      db1.analysisTasks = exDb0.analysisTasks ∧
      db1.ragTasks = exDb0.ragTasks ∧
      (∀ env2 : UploadEnv, env2.hashBytes = exEnv.hashBytes →
        upload_route env2 exDb0 "u1" "deck.pdf" [9] =
          upload_route exEnv exDb0 "u1" "deck.pdf" [9]) := by
  exact upload_pending_fast_path exEnv exDb0 "u1" "deck.pdf" [9]
    (by decide) (by decide) (by decide)

/-- The status column of the deck row with the given id, if any. -/
def deckStatus (db : Db) (i : Nat) : Option String :=
  (db.pitch_decks.find? (fun d => d.id == i)).map DeckRec.status

/-- Outcome oracle for the storage writes of the analysis save path: whether
the `council_analyses` upsert, the deck status/score update, and the
follow-up CRM read-merge-update block complete without raising. -/
structure DbBeh where
  upsertAnalysisOk : Bool
  updateDeckOk : Bool
  crmStageOk : Bool
deriving DecidableEq, Repr

/-- `supabase.table("council_analyses").upsert(analysis, on_conflict="deck_id")`:
replace the row with this deck id, or append a new one. -/
def upsertAnalysis (db : Db) (a : AnalysisRec) : Db :=
  if db.council_analyses.any (fun x => x.deck_id == a.deck_id) then
    { db with
        council_analyses :=
          db.council_analyses.map (fun x => if x.deck_id == a.deck_id then a else x) }
  else
    { db with council_analyses := db.council_analyses ++ [a] }

/-- `council_service._save_analysis` (council_service.py, lines 284-305):
upsert the analysis, read `final_score` from the consensus (default 0), and
set the deck to `analyzed` with that score.  Any raising write is caught and
turned into a `False` return — the deck status is left as it was. -/
def save_analysis (beh : DbBeh) (db : Db) (a : AnalysisRec) : Db × Bool :=
  if !beh.upsertAnalysisOk then (db, false)
  else
    let db1 := upsertAnalysis db a
    let ms := match a.consensus.final_score with
      | FSVal.absent => FSVal.parsed 0
      | v => v
    if !beh.updateDeckOk then (db1, false)
    else (update_deck_status db1 a.deck_id "analyzed" (some ms), true)

/-- `council_service._run_consensus` at the outcome level: an exception
anywhere in the consensus call yields `{}` (modelled as the empty result),
a successful parse goes through the forced-recommendation block. -/
def run_consensus (outcome : Except String ConsensusResult) : ConsensusResult :=
  match outcome with
  | Except.error _ => ⟨FSVal.absent, none, []⟩
  | Except.ok r => forceRecommendation r

/-- Python's `\x7b**a, **b\x7d` dictionary merge on association lists with
unique keys: keys of `a` keep their position but take the value from `b`
when present, new keys of `b` are appended. -/
def mergeCrm (a b : List (String × String)) : List (String × String) :=
  (a.map (fun kv => (kv.1, (b.lookup kv.1).getD kv.2))) ++
    b.filter (fun kv => (a.lookup kv.1).isNone)

/-- The follow-up CRM block of `analyze_deck` (lines 165-184): read the
deck's current `crm_data`, merge the analysis CRM over it and write it back;
the whole block is wrapped in its own `try/except` (the explicit tagline
reassignment in the source is a no-op under this merge, since values from
`final_crm` already override). -/
def crm_update_stage (ok : Bool) (db : Db) (i : Nat)
    (final_crm : List (String × String)) : Db :=
  if ok then
    { db with pitch_decks := db.pitch_decks.map (fun (d : DeckRec) =>
        if d.id == i then { d with crm_data := mergeCrm d.crm_data final_crm }
        else d) }
  else db

/-- Steps 3-4 of `council_service.analyze_deck` (lines 139-192): consensus,
CRM merge, save, and the conditional CRM update.  Returns the state, the
save success flag, and whether the CRM stage ran.  No exception escapes this
region in the source (every sub-step catches its own), so the outer
`except`, which is the only place that sets status `failed`, is not
reached from here. -/
def analyze_deck_save (beh : DbBeh) (db : Db) (i : Nat)
    (optimist skeptic quant : String) (crm_update : List (String × String))
    (outcome : Except String ConsensusResult) : Db × Bool × Bool :=
  let consensus_res := run_consensus outcome
  let final_crm := mergeCrm crm_update consensus_res.crm_data
  let consensus1 := { consensus_res with crm_data := final_crm }
  let record : AnalysisRec := ⟨i, optimist, skeptic, quant, consensus1⟩
  let sres := save_analysis beh db record
  if sres.2 then
    (crm_update_stage beh.crmStageOk sres.1 i final_crm, true, beh.crmStageOk)
  else (sres.1, false, false)

theorem upsertAnalysisDecks (db : Db) (a : AnalysisRec) :
    (upsertAnalysis db a).pitch_decks = db.pitch_decks := by
  unfold upsertAnalysis
  split <;> rfl

theorem upsertAnalysisAny (db : Db) (a : AnalysisRec) :
    (upsertAnalysis db a).council_analyses.any
      (fun x => x.deck_id == a.deck_id) = true := by
  unfold upsertAnalysis
  split
  · rename_i h
    rcases List.any_eq_true.mp h with ⟨x, hx, hpx⟩
    refine List.any_eq_true.mpr ⟨(if x.deck_id == a.deck_id then a else x), ?_, ?_⟩
    · exact List.mem_map_of_mem _ hx
    · rw [if_pos hpx]
      exact beq_self_eq_true a.deck_id
  · refine List.any_eq_true.mpr ⟨a, ?_, beq_self_eq_true a.deck_id⟩
    simp

theorem updFunIdBeq (i : Nat) (st : String) (ms : Option FSVal) (d : DeckRec) :
    (((if d.id == i then
        { d with status := st, match_score := ms.getD d.match_score }
       else d) : DeckRec).id == i) = (d.id == i) := by
  by_cases h : d.id = i
  · simp [h]
  · have hb : (d.id == i) = false := by
      cases hb2 : (d.id == i) with
      | false => rfl
      | true => exact absurd (eq_of_beq hb2) h
    simp [hb]

theorem deckStatusUpdateStatus (db : Db) (i : Nat) (st : String)
    (ms : Option FSVal) :
    deckStatus (update_deck_status db i st ms) i =
      (deckStatus db i).map (fun _ => st) := by
  unfold deckStatus update_deck_status
  simp only
  induction db.pitch_decks with
  | nil => rfl
  | cons x xs ih =>
    by_cases h : x.id = i
    · simp [List.find?_cons, h]
    · have hb : (x.id == i) = false := by
        cases hb2 : (x.id == i) with
        | false => rfl
        | true => exact absurd (eq_of_beq hb2) h
      rw [List.map_cons, List.find?_cons, List.find?_cons, updFunIdBeq i st ms x, hb]
      exact ih

theorem crmStageAnalyses (ok : Bool) (db : Db) (i : Nat)
    (c : List (String × String)) :
    (crm_update_stage ok db i c).council_analyses = db.council_analyses := by
  unfold crm_update_stage
  split <;> rfl

theorem crmFunIdBeq (i : Nat) (c : List (String × String)) (d : DeckRec) :
    (((if d.id == i then { d with crm_data := mergeCrm d.crm_data c }
       else d) : DeckRec).id == i) = (d.id == i) := by
  by_cases h : d.id = i
  · simp [h]
  · have hb : (d.id == i) = false := by
      cases hb2 : (d.id == i) with
      | false => rfl
      | true => exact absurd (eq_of_beq hb2) h
    simp [hb]

theorem deckStatusCrmStage (ok : Bool) (db : Db) (i : Nat)
    (c : List (String × String)) :
    deckStatus (crm_update_stage ok db i c) i = deckStatus db i := by
  unfold crm_update_stage
  split
  · unfold deckStatus
    simp only
    induction db.pitch_decks with
    | nil => rfl
    | cons x xs ih =>
      by_cases h : x.id = i
      · simp [List.find?_cons, h]
      · have hb : (x.id == i) = false := by
          cases hb2 : (x.id == i) with
          | false => rfl
          | true => exact absurd (eq_of_beq hb2) h
        rw [List.map_cons, List.find?_cons, List.find?_cons, crmFunIdBeq i c x, hb]
        exact ih
  · rfl

theorem deckStatusUpsert (db : Db) (a : AnalysisRec) (i : Nat) :
    deckStatus (upsertAnalysis db a) i = deckStatus db i := by
  unfold deckStatus
  rw [upsertAnalysisDecks]

/-- A one-deck state whose deck is mid-analysis. -/
def exDbC6 : Db :=
  ⟨[⟨1, "u1", "a.pdf", "Acme", "txt", "analyzing", "h", FSVal.absent, []⟩],
   [], 2, [], []⟩

/-- Counterexample to C6 as stated.  The claim requires that a storage write
failure during the save step sets the document status to `failed`.  In the
source, `_save_analysis` catches the failed upsert and merely returns
`False`; `analyze_deck` only skips the CRM stage on a `False` return and the
outer handler that writes `failed` never fires, so the deck stays
`analyzing`. -/
theorem save_failure_counterexample :
    (analyze_deck_save ⟨false, true, true⟩ exDbC6 1 "o" "s" "q" []
        (Except.ok ⟨FSVal.parsed 75, some "Invest", []⟩)).2.1 = false ∧
    deckStatus (analyze_deck_save ⟨false, true, true⟩ exDbC6 1 "o" "s" "q" []
        (Except.ok ⟨FSVal.parsed 75, some "Invest", []⟩)).1 1 =
      some "analyzing" ∧
    some "analyzing" ≠ some "failed" := by
  exact ⟨rfl, rfl, by decide⟩

/-- C6 (amended): when persisting the analysis fails (the upsert or the
status write raises), the save step reports failure, the CRM stage — the
only remaining stage of the run — is skipped, and the deck rows are left
completely unchanged: the status is not set to `failed`.  Conversely a
Consensus-agent failure alone (an empty consensus object) does not prevent
persistence: with reliable storage the analysis row is stored and the deck
reaches `analyzed`. -/
theorem save_failure_amended :
    (∀ (beh : DbBeh) (db : Db) (i : Nat) (o s q : String)
        (crm : List (String × String)) (outcome : Except String ConsensusResult),
      beh.upsertAnalysisOk = false ∨ beh.updateDeckOk = false →
      (analyze_deck_save beh db i o s q crm outcome).2.1 = false ∧
      (analyze_deck_save beh db i o s q crm outcome).2.2 = false ∧
      (analyze_deck_save beh db i o s q crm outcome).1.pitch_decks =
        db.pitch_decks) ∧
    (∀ (db : Db) (i : Nat) (o s q : String) (crm : List (String × String))
        (e : String),
      (analyze_deck_save ⟨true, true, true⟩ db i o s q crm
        (Except.error e)).2.1 = true ∧
      ((analyze_deck_save ⟨true, true, true⟩ db i o s q crm
        (Except.error e)).1.council_analyses.any
          (fun a => a.deck_id == i)) = true ∧
      deckStatus (analyze_deck_save ⟨true, true, true⟩ db i o s q crm
          (Except.error e)).1 i =
        (deckStatus db i).map (fun _ => "analyzed")) := by
  constructor
  · intro beh db i o s q crm outcome hfail
    cases hu : beh.upsertAnalysisOk with
    | false =>
      refine ⟨?_, ?_, ?_⟩ <;> simp [analyze_deck_save, save_analysis, hu]
    | true =>
      have hup : beh.updateDeckOk = false := by
        rcases hfail with h1 | h2
        · exact absurd (h1 ▸ hu) (by decide)
        · exact h2
      refine ⟨?_, ?_, ?_⟩ <;>
        simp [analyze_deck_save, save_analysis, hu, hup, upsertAnalysisDecks]
  · intro db i o s q crm e
    refine ⟨rfl, ?_, ?_⟩
    · exact upsertAnalysisAny db ⟨i, o, s, q, ⟨FSVal.absent, none, mergeCrm crm []⟩⟩
    · show deckStatus (crm_update_stage true
        (update_deck_status
          (upsertAnalysis db ⟨i, o, s, q, ⟨FSVal.absent, none, mergeCrm crm []⟩⟩)
          i "analyzed" (some (FSVal.parsed 0)))
        i (mergeCrm crm [])) i = (deckStatus db i).map (fun _ => "analyzed")
      rw [deckStatusCrmStage, deckStatusUpdateStatus, deckStatusUpsert]

/-- Witness for the amended C6 at concrete inputs: a failing upsert leaves
the deck rows unchanged and skips the CRM stage; a consensus failure with
reliable storage still persists and marks the deck `analyzed`. -/
theorem save_failure_amended_witness :
    ((analyze_deck_save ⟨false, true, true⟩ exDbC6 1 "o" "s" "q" []
        (Except.ok ⟨FSVal.parsed 75, some "Invest", []⟩)).2.1 = false ∧
     (analyze_deck_save ⟨false, true, true⟩ exDbC6 1 "o" "s" "q" []
        (Except.ok ⟨FSVal.parsed 75, some "Invest", []⟩)).2.2 = false ∧
     (analyze_deck_save ⟨false, true, true⟩ exDbC6 1 "o" "s" "q" []
        (Except.ok ⟨FSVal.parsed 75, some "Invest", []⟩)).1.pitch_decks =
       exDbC6.pitch_decks) ∧
    ((analyze_deck_save ⟨true, true, true⟩ exDbC6 1 "o" "s" "q" []
        (Except.error "consensus failed")).2.1 = true ∧
     ((analyze_deck_save ⟨true, true, true⟩ exDbC6 1 "o" "s" "q" []
        (Except.error "consensus failed")).1.council_analyses.any
          (fun a => a.deck_id == 1)) = true ∧
     deckStatus (analyze_deck_save ⟨true, true, true⟩ exDbC6 1 "o" "s" "q" []
          (Except.error "consensus failed")).1 1 =
       (deckStatus exDbC6 1).map (fun _ => "analyzed")) := by
  constructor
  · exact save_failure_amended.1 ⟨false, true, true⟩ exDbC6 1 "o" "s" "q" []
      (Except.ok ⟨FSVal.parsed 75, some "Invest", []⟩) (Or.inl rfl)
  · exact save_failure_amended.2 exDbC6 1 "o" "s" "q" [] "consensus failed"

/-- A row of the `deck_chunks` table as returned by the keyword query
(`select id, deck_id, content`). -/
structure ChunkRow where
  id : Nat
  deck_id : Nat
  content : String
deriving DecidableEq, Repr

/-- A hit as handled by `search_related_chunks`: rows from the vector RPC
carry a `similarity` key, keyword rows do not. -/
structure ChunkHit where
  id : Nat
  deck_id : Nat
  content : String
  similarity : Option ℚ
deriving DecidableEq, Repr

/-- The formatted result dictionary built at the end of
`search_related_chunks`; a missing similarity defaults to the synthetic
0.9. -/
structure SearchResult where
  id : Nat
  content : String
  similarity : ℚ
  deck_id : Nat
deriving DecidableEq, Repr

def toResult (c : ChunkHit) : SearchResult :=
  ⟨c.id, c.content, c.similarity.getD (9 / 10), c.deck_id⟩

def hitOfRow (c : ChunkRow) : ChunkHit := ⟨c.id, c.deck_id, c.content, none⟩

/-- The optional deck-id filter (`.in_("deck_id", deck_ids)`). -/
def inDeckFilter (deckIds : Option (List Nat)) (d : Nat) : Bool :=
  match deckIds with
  | none => true
  | some ids => ids.contains d

/-- Containment of `small` as a contiguous sublist of `big`. -/
def containsSubstring (small : List Char) : List Char → Bool
  | [] => small.isEmpty
  | b :: t => small.isPrefixOf (b :: t) || containsSubstring small t

/-- The `ilike("content", "%query%")` match of the keyword fallback:
case-insensitive substring containment (the external store's ILIKE, for
queries without wildcard metacharacters). -/
def ilikeContains (content query : String) : Bool :=
  containsSubstring (query.data.map Char.toLower) (content.data.map Char.toLower)

/-- `rag_service.keyword_search_fallback` (rag_service.py, lines 124-147):
substring query over `deck_chunks`, optionally restricted to given deck
ids, truncated by the store to `limit` rows. -/
def keyword_search_fallback (corpus : List ChunkRow) (query : String)
    (deckIds : Option (List Nat)) (limit : Nat) : List ChunkRow :=
  (corpus.filter
    (fun c => inDeckFilter deckIds c.deck_id && ilikeContains c.content query)).take limit

/-- `rag_service.search_related_chunks` (rag_service.py, lines 69-122).
`vectorHits` is the response of the external `match_deck_chunks` RPC (empty
when the embedding call failed or nothing passed the threshold).  When it
holds fewer than 2 rows the keyword fallback over the same corpus is merged
in, de-duplicated against the vector hits by id, and the formatted result is
truncated to `limit`. -/
def search_related_chunks (vectorHits : List ChunkHit) (corpus : List ChunkRow)
    (query : String) (deckIds : Option (List Nat)) (limit : Nat) :
    List SearchResult :=
  let chunks := vectorHits
  let chunks :=
    if chunks.length < 2 then
      let kw := (keyword_search_fallback corpus query deckIds limit).map hitOfRow
      chunks ++ kw.filter (fun kr => !(chunks.any (fun c => c.id == kr.id)))
    else chunks
  (chunks.map toResult).take limit

/-- C7: when the similarity query returns fewer than 2 hits, the substring
fallback over the same corpus is merged in.  The result is truncated to the
requested limit; every returned row is either a vector hit or a substring
match from the corpus whose id does not collide with any vector hit
(de-duplication by chunk identity); and with zero similarity hits, at least
one stored substring match, and a positive limit, a substring match is
returned. -/
theorem search_fallback_merges (vectorHits : List ChunkHit)
    (corpus : List ChunkRow) (query : String) (deckIds : Option (List Nat))
    (limit : Nat) (hlt : vectorHits.length < 2) :
    (search_related_chunks vectorHits corpus query deckIds limit).length ≤ limit ∧
    (∀ r ∈ search_related_chunks vectorHits corpus query deckIds limit,
      (∃ c ∈ vectorHits, toResult c = r) ∨
      ((∃ c ∈ corpus,
          (inDeckFilter deckIds c.deck_id && ilikeContains c.content query) = true ∧
          toResult (hitOfRow c) = r) ∧
        ∀ v ∈ vectorHits, v.id ≠ r.id)) ∧
    (vectorHits = [] → 1 ≤ limit →
      (∃ c ∈ corpus,
        (inDeckFilter deckIds c.deck_id && ilikeContains c.content query) = true) →
      ∃ r ∈ search_related_chunks vectorHits corpus query deckIds limit,
        ilikeContains r.content query = true) := by
  have hsearch : search_related_chunks vectorHits corpus query deckIds limit =
      ((vectorHits ++
        (((corpus.filter (fun c => inDeckFilter deckIds c.deck_id &&
            ilikeContains c.content query)).take limit).map hitOfRow).filter
          (fun kr => !(vectorHits.any (fun c => c.id == kr.id)))).map toResult).take
        limit := by
    simp only [search_related_chunks, keyword_search_fallback]
    rw [if_pos hlt]
  refine ⟨?_, ?_, ?_⟩
  · rw [hsearch]
    exact List.length_take_le _ _
  · intro r hr
    rw [hsearch] at hr
    have hr2 := List.mem_of_mem_take hr
    obtain ⟨c, hc, rfl⟩ := List.mem_map.mp hr2
    rcases List.mem_append.mp hc with hv | hk
    · exact Or.inl ⟨c, hv, rfl⟩
    · right
      have hkf := List.mem_filter.mp hk
      obtain ⟨row, hrow, rfl⟩ := List.mem_map.mp hkf.1
      have hrow2 := List.mem_filter.mp (List.mem_of_mem_take hrow)
      refine ⟨⟨row, hrow2.1, hrow2.2, rfl⟩, ?_⟩
      intro v hv hvid
      have hpred := hkf.2
      rw [Bool.not_eq_true'] at hpred
      have hnone := List.any_eq_false.mp hpred v hv
      exact hnone (by rw [hvid]; exact beq_self_eq_true _)
  · intro hnil hlim hex
    obtain ⟨c, hcmem, hcp⟩ := hex
    subst hnil
    have hcf : c ∈ corpus.filter (fun c => inDeckFilter deckIds c.deck_id &&
        ilikeContains c.content query) := List.mem_filter.mpr ⟨hcmem, hcp⟩
    cases hfl : corpus.filter (fun c => inDeckFilter deckIds c.deck_id &&
        ilikeContains c.content query) with
    | nil =>
      rw [hfl] at hcf
      exact absurd hcf (List.not_mem_nil c)
    | cons c0 tl =>
      have hc0mem : c0 ∈ corpus.filter (fun c => inDeckFilter deckIds c.deck_id &&
          ilikeContains c.content query) := by
        rw [hfl]
        exact List.mem_cons_self c0 tl
      have hc0 : (inDeckFilter deckIds c0.deck_id &&
          ilikeContains c0.content query) = true :=
        (List.mem_filter.mp hc0mem).2
      have hc0il : ilikeContains c0.content query = true := by
        rw [Bool.and_eq_true] at hc0
        exact hc0.2
      cases limit with
      | zero => exact absurd hlim (by decide)
      | succ k =>
        refine ⟨toResult (hitOfRow c0), ?_, hc0il⟩
        rw [hsearch, hfl]
        simp only [List.nil_append, List.take_succ_cons, List.map_cons,
          List.filter_cons, List.any_nil, Bool.not_false, if_pos rfl]
        exact List.mem_cons_self _ _

/-- Witness for C7: zero vector hits, one stored chunk containing the query
as a (case-insensitive) substring, limit 5: the substring match is
returned. -/
theorem search_fallback_merges_witness :
    ∃ r ∈ search_related_chunks [] [⟨1, 1, "Acme TAM is large"⟩] "tam" none 5,
      ilikeContains r.content "tam" = true := by
  exact (search_fallback_merges [] [⟨1, 1, "Acme TAM is large"⟩] "tam" none 5
      (by decide)).2.2 rfl (by decide)
    ⟨⟨1, 1, "Acme TAM is large"⟩, by decide, by decide⟩

/-- A tool invocation requested by the model. -/
structure ToolCall where
  callId : String
  name : String
  arguments : String
deriving DecidableEq, Repr

/-- A model response message: optional text content and the (possibly
empty) list of requested tool calls. -/
structure ModelMsg where
  content : Option String
  tool_calls : List ToolCall
deriving DecidableEq, Repr

/-- A conversation turn as built by `chat_with_associate`:
`system`/`user`/`tool` turns are Python dictionaries (no `content`
attribute), an `assistant` turn is the SDK message object appended verbatim
(with a `content` attribute). -/
inductive Msg where
  | system : String → Msg
  | user : String → Msg
  | assistant : ModelMsg → Msg
  | tool : String → String → Msg
deriving DecidableEq, Repr

def isAssistantMsg : Msg → Bool
  | Msg.assistant _ => true
  | _ => false

def lastIsAssistant (msgs : List Msg) : Bool :=
  match msgs.getLast? with
  | some (Msg.assistant _) => true
  | _ => false

/-- The post-loop fallback of `chat_with_associate` (assistant_service.py,
line 261): `messages[-1].content if hasattr(messages[-1], 'content') else
"I need more information."`.  Only an assistant object has the attribute;
its content may be `None`, hence the `Option` result. -/
def lastContentFallback (msgs : List Msg) : Option String :=
  match msgs.getLast? with
  | some (Msg.assistant m) => m.content
  | _ => some "I need more information."

/-- The agentic loop of `chat_with_associate` (assistant_service.py, lines
230-261).  `llm` is the completion oracle (`Except.error` models a raised
exception inside the `try`); `tools` is `_execute_tool`, which catches
every exception and always returns a string.  Returns the function's result
(`none` would model returning Python `None`) and the number of completed
LLM calls. -/
def chat_loop (llm : List Msg → Except String ModelMsg)
    (tools : String → String → String) :
    Nat → List Msg → Nat → Option String × Nat
  | 0, msgs, calls => (lastContentFallback msgs, calls)
  | fuel + 1, msgs, calls =>
    match llm msgs with
    | Except.error e => (some ("Error: " ++ e), calls + 1)
    | Except.ok m =>
      if m.tool_calls.isEmpty then
        (some (pyOrStr m.content "I\x27m ready to help."), calls + 1)
      else
        chat_loop llm tools fuel
          ((msgs ++ [Msg.assistant m]) ++
            m.tool_calls.map (fun tc => Msg.tool tc.callId (tools tc.name tc.arguments)))
          (calls + 1)

/-- The initial message list: system prompt, the last 8 history turns, the
user query. -/
def initMessages (sys : String) (history : List Msg) (q : String) : List Msg :=
  [Msg.system sys] ++ history.drop (history.length - 8) ++ [Msg.user q]

/-- `chat_with_associate` from the loop onward, with the iteration budget
fixed at 5 as in the source (`for _ in range(5)`). -/
def chat_with_associate (llm : List Msg → Except String ModelMsg)
    (tools : String → String → String) (sys : String) (history : List Msg)
    (q : String) : Option String × Nat :=
  chat_loop llm tools 5 (initMessages sys history q) 0

theorem errorNonempty (e : String) : ("Error: " ++ e) ≠ "" := by
  intro h
  have h2 : ("Error: " ++ e).length = "".length := congrArg String.length h
  rw [String.length_append] at h2
  have h3 : ("Error: " : String).length = 7 := by decide
  have h4 : ("" : String).length = 0 := by decide
  omega

theorem pyOrStrNonempty (c : Option String) (d : String) (hd : d ≠ "") :
    pyOrStr c d ≠ "" := by
  cases c with
  | none => exact hd
  | some s =>
    simp only [pyOrStr]
    cases hs : (s == "") with
    | true => simpa using hd
    | false =>
      simp only [Bool.false_eq_true, if_false]
      intro heq
      rw [heq] at hs
      simp at hs

theorem lastContentFallbackNonempty (msgs : List Msg)
    (h : lastIsAssistant msgs = false) :
    ∃ s, lastContentFallback msgs = some s ∧ s ≠ "" := by
  unfold lastIsAssistant at h
  unfold lastContentFallback
  cases hl : msgs.getLast? with
  | none => exact ⟨_, rfl, by decide⟩
  | some m =>
    cases m with
    | assistant mm =>
      rw [hl] at h
      simp at h
    | system s => exact ⟨"I need more information.", rfl, by decide⟩
    | user s => exact ⟨"I need more information.", rfl, by decide⟩
    | tool a b => exact ⟨"I need more information.", rfl, by decide⟩

theorem lastMapToolNotAssistant (tools : String → String → String)
    (l1 : List Msg) (tc : ToolCall) (rest : List ToolCall) :
    lastIsAssistant (l1 ++
      (tc :: rest).map (fun t => Msg.tool t.callId (tools t.name t.arguments))) =
      false := by
  unfold lastIsAssistant
  rw [List.map_cons, List.getLast?_append_cons]
  induction rest generalizing tc with
  | nil => rfl
  | cons r rs ih =>
    rw [List.map_cons, List.getLast?_cons_cons]
    exact ih r

theorem chat_loop_spec (llm : List Msg → Except String ModelMsg)
    (tools : String → String → String) :
    ∀ (fuel : Nat) (msgs : List Msg) (calls : Nat),
      lastIsAssistant msgs = false →
      ∃ s n, chat_loop llm tools fuel msgs calls = (some s, n) ∧ s ≠ "" ∧
        n ≤ calls + fuel := by
  intro fuel
  induction fuel with
  | zero =>
    intro msgs calls h
    obtain ⟨s, hs, hne⟩ := lastContentFallbackNonempty msgs h
    exact ⟨s, calls, by simp [chat_loop, hs], hne, Nat.le_refl _⟩
  | succ fuel ih =>
    intro msgs calls h
    cases hm : llm msgs with
    | error e =>
      refine ⟨"Error: " ++ e, calls + 1, ?_, errorNonempty e, by omega⟩
      simp [chat_loop, hm]
    | ok m =>
      cases hempty : m.tool_calls with
      | nil =>
        refine ⟨pyOrStr m.content "I\x27m ready to help.", calls + 1, ?_,
          pyOrStrNonempty _ _ (by decide), by omega⟩
        simp [chat_loop, hm, hempty]
      | cons tc rest =>
        have hlast : lastIsAssistant ((msgs ++ [Msg.assistant m]) ++
            m.tool_calls.map
              (fun t => Msg.tool t.callId (tools t.name t.arguments))) = false := by
          rw [hempty]
          exact lastMapToolNotAssistant tools _ tc rest
        obtain ⟨s, n, heq, hne, hn⟩ := ih _ (calls + 1) hlast
        refine ⟨s, n, ?_, hne, by omega⟩
        rw [show chat_loop llm tools (fuel + 1) msgs calls =
          chat_loop llm tools fuel ((msgs ++ [Msg.assistant m]) ++
            m.tool_calls.map
              (fun t => Msg.tool t.callId (tools t.name t.arguments)))
            (calls + 1) by
          simp [chat_loop, hm, hempty]]
        exact heq

theorem chat_loop_pathological (llm : List Msg → Except String ModelMsg)
    (tools : String → String → String)
    (hpath : ∀ msgs, ∃ m, llm msgs = Except.ok m ∧ m.tool_calls ≠ []) :
    ∀ (fuel : Nat) (msgs : List Msg) (calls : Nat),
      (chat_loop llm tools fuel msgs calls).2 = calls + fuel := by
  intro fuel
  induction fuel with
  | zero =>
    intro msgs calls
    simp [chat_loop]
  | succ fuel ih =>
    intro msgs calls
    obtain ⟨m, hm, hne⟩ := hpath msgs
    have hemp : m.tool_calls.isEmpty = false := by
      cases he : m.tool_calls with
      | nil => exact absurd he hne
      | cons a b => rfl
    rw [show chat_loop llm tools (fuel + 1) msgs calls =
      chat_loop llm tools fuel ((msgs ++ [Msg.assistant m]) ++
        m.tool_calls.map
          (fun t => Msg.tool t.callId (tools t.name t.arguments)))
        (calls + 1) by
      simp [chat_loop, hm, hemp]]
    rw [ih]
    omega

/-- C8: for every completion-oracle behaviour and tool executor, the
conversation loop terminates within the configured budget of 5 LLM calls
and returns a non-empty string; a pathological oracle that requests a tool
on every turn exhausts exactly 5 iterations; and a first turn with no tool
request terminates the loop after a single call with the model's text (or
the default). -/
theorem chat_loop_bounded_nonempty (llm : List Msg → Except String ModelMsg)
    (tools : String → String → String) (sys : String) (history : List Msg)
    (q : String) :
    (∃ s n, chat_with_associate llm tools sys history q = (some s, n) ∧
      s ≠ "" ∧ n ≤ 5) ∧
    ((∀ msgs, ∃ m, llm msgs = Except.ok m ∧ m.tool_calls ≠ []) →
      (chat_with_associate llm tools sys history q).2 = 5) ∧
    (∀ m, llm (initMessages sys history q) = Except.ok m → m.tool_calls = [] →
      chat_with_associate llm tools sys history q =
        (some (pyOrStr m.content "I\x27m ready to help."), 1)) := by
  refine ⟨?_, ?_, ?_⟩
  · have hlast : lastIsAssistant (initMessages sys history q) = false := by
      unfold lastIsAssistant initMessages
      rw [List.getLast?_append_cons]
      rfl
    exact chat_loop_spec llm tools 5 _ 0 hlast
  · intro hpath
    exact chat_loop_pathological llm tools hpath 5 (initMessages sys history q) 0
  · intro m hm hempty
    show chat_loop llm tools 5 (initMessages sys history q) 0 =
      (some (pyOrStr m.content "I\x27m ready to help."), 1)
    have hemp2 : m.tool_calls.isEmpty = true := by
      rw [hempty]
      rfl
    simp only [chat_loop, hm, hemp2, if_true]

/-- Witness for C8: a pathological oracle that always requests one tool call
and never returns text exhausts exactly 5 iterations, and the result is a
non-empty string. -/
theorem chat_loop_bounded_nonempty_witness :
    (chat_with_associate (fun _ => Except.ok ⟨none, [⟨"1", "search_web", "q"⟩]⟩)
        (fun _ _ => "tool output") "sys" [] "hello").2 = 5 ∧
    (∃ s n, chat_with_associate
        (fun _ => Except.ok ⟨none, [⟨"1", "search_web", "q"⟩]⟩)
        (fun _ _ => "tool output") "sys" [] "hello" = (some s, n) ∧
      s ≠ "" ∧ n ≤ 5) := by
  constructor
  · exact (chat_loop_bounded_nonempty
        (fun _ => Except.ok ⟨none, [⟨"1", "search_web", "q"⟩]⟩)
        (fun _ _ => "tool output") "sys" [] "hello").2.1
      (fun msgs => ⟨⟨none, [⟨"1", "search_web", "q"⟩]⟩, rfl, by decide⟩)
  · exact (chat_loop_bounded_nonempty
        (fun _ => Except.ok ⟨none, [⟨"1", "search_web", "q"⟩]⟩)
        (fun _ _ => "tool output") "sys" [] "hello").1

/-- Python slicing `text[start:stop]` for `0 ≤ start ≤ stop` (out-of-range
indices clip). -/
def pySlice (text : List Char) (start stop : Nat) : List Char :=
  (text.take stop).drop start

/-- Python's `str.rfind(c)`: index of the last occurrence, `-1` if absent. -/
def rfindC (l : List Char) (c : Char) : Int :=
  match l with
  | [] => -1
  | x :: xs =>
    let r := rfindC xs c
    if r ≥ 0 then r + 1
    else if x == c then 0 else -1

/-- One iteration's final `end` value for the chunkers of
`pdf_service.chunk_text` (lines 124-151, `useNewline = true`: the break
point is `max(chunk.rfind('.'), chunk.rfind('\n'))`) and
`rag_service._chunk_text` (lines 149-168, `useNewline = false`: only
`chunk.rfind('.')` is consulted, despite the comment "Try to break at a
newline or period").  A break point strictly past `chunk_size // 2` ends
the window just after it; otherwise, and whenever the window reaches the
end of the text, `end` stays `start + chunk_size`. -/
def chunkEnd (useNewline : Bool) (text : List Char) (size : Nat) (start : Nat) : Nat :=
  let end0 := start + size
  if end0 < text.length then
    let chunk := pySlice text start end0
    let bp : Int :=
      if useNewline then max (rfindC chunk '.') (rfindC chunk '\n')
      else rfindC chunk '.'
    if bp > ((size / 2 : Nat) : Int) then start + bp.toNat + 1 else end0
  else end0

/-- The `while start < len(text)` loop of both chunkers, as the list of
`(start, end)` windows produced; the explicit fuel makes potential
non-termination observable as `none`. -/
def chunkWindows (useNewline : Bool) (size ov : Nat) (text : List Char) :
    Nat → Nat → Option (List (Nat × Nat))
  | 0, _ => none
  | fuel + 1, start =>
    if start < text.length then
      let e := chunkEnd useNewline text size start
      match chunkWindows useNewline size ov text fuel (e - ov) with
      | none => none
      | some rest => some ((start, e) :: rest)
    else some []

/-- Python's `str.strip()`. -/
def pyStrip (l : List Char) : List Char :=
  ((l.dropWhile (fun c => c.isWhitespace)).reverse.dropWhile
    (fun c => c.isWhitespace)).reverse

/-- The common body of both chunkers: slice each window, strip it, and drop
empty chunks; fuel `length + 1` suffices at the default parameters (see
`chunk_termination_nonempty`). -/
def chunkTextGen (useNewline : Bool) (size ov : Nat) (text : List Char) :
    Option (List (List Char)) :=
  (chunkWindows useNewline size ov text (text.length + 1) 0).map
    (fun ws => (ws.map (fun w => pyStrip (pySlice text w.1 w.2))).filter
      (fun c => !c.isEmpty))

/-- `pdf_service.chunk_text`. -/
def pdf_chunk_text (size ov : Nat) (text : List Char) : Option (List (List Char)) :=
  chunkTextGen true size ov text

/-- `rag_service._chunk_text`. -/
def rag_chunk_text (size ov : Nat) (text : List Char) : Option (List (List Char)) :=
  chunkTextGen false size ov text

theorem rfindC_bounds (l : List Char) (c : Char) :
    -1 ≤ rfindC l c ∧ rfindC l c < l.length := by
  induction l with
  | nil => exact ⟨le_refl _, by simp [rfindC]⟩
  | cons x xs ih =>
    simp only [rfindC, List.length_cons]
    split
    · constructor
      · omega
      · have := ih.2
        push_cast
        omega
    · split
      · constructor
        · omega
        · push_cast
          omega
      · constructor
        · omega
        · push_cast
          omega

theorem pySlice_length_le (text : List Char) (start : Nat) (size : Nat) :
    (pySlice text start (start + size)).length ≤ size := by
  simp only [pySlice, List.length_drop, List.length_take]
  omega

theorem chunkEnd_bounds (useNewline : Bool) (text : List Char) (start : Nat) :
    start + 302 ≤ chunkEnd useNewline text 1000 start ∧
    chunkEnd useNewline text 1000 start ≤ start + 1000 := by
  have hlen := pySlice_length_le text start 1000
  have h1 := rfindC_bounds (pySlice text start (start + 1000)) '.'
  have h2 := rfindC_bounds (pySlice text start (start + 1000)) '\n'
  unfold chunkEnd
  cases useNewline with
  | false =>
    simp only [Bool.false_eq_true, if_false]
    split
    · split
      · rename_i hbp
        constructor <;> omega
      · omega
    · omega
  | true =>
    simp only [if_true]
    split
    · split
      · rename_i hbp
        rcases max_choice (rfindC (pySlice text start (start + 1000)) '.')
            (rfindC (pySlice text start (start + 1000)) '\n') with hm | hm <;>
          rw [hm] at hbp ⊢ <;> constructor <;> omega
      · omega
    · omega

theorem chunkWindows_sufficient (un : Bool) (text : List Char) :
    ∀ (fuel start : Nat), text.length - start < fuel →
      ∃ ws, chunkWindows un 1000 200 text fuel start = some ws := by
  intro fuel
  induction fuel with
  | zero =>
    intro start h
    omega
  | succ fuel ih =>
    intro start h
    by_cases hs : start < text.length
    · have hb := chunkEnd_bounds un text start
      obtain ⟨ws, hws⟩ := ih (chunkEnd un text 1000 start - 200) (by omega)
      exact ⟨(start, chunkEnd un text 1000 start) :: ws, by simp [chunkWindows, hs, hws]⟩
    · exact ⟨[], by simp [chunkWindows, hs]⟩

theorem chunkTextGen_total (un : Bool) (text : List Char) :
    ∃ l, chunkTextGen un 1000 200 text = some l ∧ ∀ c ∈ l, c ≠ [] := by
  obtain ⟨ws, hws⟩ := chunkWindows_sufficient un text (text.length + 1) 0 (by omega)
  refine ⟨(ws.map (fun w => pyStrip (pySlice text w.1 w.2))).filter
    (fun c => !c.isEmpty), ?_, ?_⟩
  · simp [chunkTextGen, hws]
  intro c hc
  have h2 := (List.mem_filter.mp hc).2
  cases c with
  | nil => simp at h2
  | cons a b => simp

/-- C10: with the default parameters (chunk size 1000, overlap 200) both
chunkers terminate — every iteration moves the window start forward by a
strictly positive amount, since a chosen break point lies strictly past the
midpoint 500, which exceeds the overlap 200 — and every chunk in the
returned list is non-empty. -/
theorem chunk_termination_nonempty :
    (∀ (un : Bool) (text : List Char) (start : Nat),
      start + 200 < chunkEnd un text 1000 start) ∧
    (∀ text : List Char, ∃ l, pdf_chunk_text 1000 200 text = some l ∧
      ∀ c ∈ l, c ≠ []) ∧
    (∀ text : List Char, ∃ l, rag_chunk_text 1000 200 text = some l ∧
      ∀ c ∈ l, c ≠ []) := by
  refine ⟨?_, ?_, ?_⟩
  · intro un text start
    have := chunkEnd_bounds un text start
    omega
  · intro text
    exact chunkTextGen_total true text
  · intro text
    exact chunkTextGen_total false text

/-- Witness for C10 at a concrete two-character text. -/
theorem chunk_termination_nonempty_witness :
    ∃ l, rag_chunk_text 1000 200 ['a', 'b'] = some l ∧ ∀ c ∈ l, c ≠ [] := by
  exact chunk_termination_nonempty.2.2 ['a', 'b']

theorem rfindC_cons (x : Char) (xs : List Char) (c : Char) :
    rfindC (x :: xs) c =
      if rfindC xs c ≥ 0 then rfindC xs c + 1
      else if x == c then 0 else -1 := rfl

theorem rfindC_replicate_ne (n : Nat) (a c : Char) (h : (a == c) = false) :
    rfindC (List.replicate n a) c = -1 := by
  induction n with
  | zero => rfl
  | succ n ih => simp [List.replicate_succ, rfindC, ih, h]

theorem rfindC_append (l1 l2 : List Char) (c : Char) :
    rfindC (l1 ++ l2) c =
      if rfindC l2 c ≥ 0 then rfindC l2 c + l1.length else rfindC l1 c := by
  induction l1 with
  | nil =>
    have hb := (rfindC_bounds l2 c).1
    simp only [List.nil_append, List.length_nil]
    split
    · omega
    · rename_i h
      simp only [rfindC]
      omega
  | cons x xs ih =>
    simp only [List.cons_append, rfindC, List.append_eq, ih, List.length_cons]
    by_cases h2 : rfindC l2 c ≥ 0
    · split_ifs <;> push_cast <;> omega
    · rw [if_neg h2, if_neg h2]

theorem chunkWindows_step (un : Bool) (size ov : Nat) (text : List Char)
    (fuel start : Nat) (hs : start < text.length) (ws : List (Nat × Nat))
    (hrec : chunkWindows un size ov text fuel (chunkEnd un text size start - ov) =
      some ws) :
    chunkWindows un size ov text (fuel + 1) start =
      some ((start, chunkEnd un text size start) :: ws) := by
  simp [chunkWindows, hs, hrec]

theorem chunkWindows_stop (un : Bool) (size ov : Nat) (text : List Char)
    (fuel start : Nat) (hs : ¬ start < text.length) :
    chunkWindows un size ov text (fuel + 1) start = some [] := by
  simp [chunkWindows, hs]

/-- The failing input for the line-boundary rule: 700 `a`s, one newline,
500 `a`s (1201 characters, no period). -/
def exText : List Char :=
  List.replicate 700 'a' ++ '\n' :: List.replicate 500 'a'

theorem exText_length : exText.length = 1201 := by
  rw [exText, List.length_append, List.length_cons, List.length_replicate,
    List.length_replicate]

theorem exText_chunk : pySlice exText 0 1000 =
    List.replicate 700 'a' ++ '\n' :: List.replicate 299 'a' := by
  rw [pySlice, List.drop_zero, exText, List.take_append_eq_append_take,
    List.take_replicate, List.length_replicate,
    show (1000 : Nat) - 700 = 299 + 1 from rfl, List.take_succ_cons,
    List.take_replicate]
  norm_num

theorem exText_chunk_dot : rfindC (pySlice exText 0 1000) '.' = -1 := by
  rw [exText_chunk, rfindC_append, rfindC_replicate_ne 700 'a' '.' (by decide)]
  have h2 : rfindC ('\n' :: List.replicate 299 'a') '.' = -1 := by
    rw [rfindC_cons, rfindC_replicate_ne 299 'a' '.' (by decide)]
    norm_num
    decide
  rw [h2]
  norm_num

theorem exText_chunk_newline : rfindC (pySlice exText 0 1000) '\n' = 700 := by
  rw [exText_chunk, rfindC_append]
  have h2 : rfindC ('\n' :: List.replicate 299 'a') '\n' = 0 := by
    rw [rfindC_cons, rfindC_replicate_ne 299 'a' '\n' (by decide)]
    norm_num
  rw [h2]
  norm_num

theorem exText_end_rag : chunkEnd false exText 1000 0 = 1000 := by
  have hcond : 0 + 1000 < exText.length := by
    rw [exText_length]
    norm_num
  have hdot : rfindC (pySlice exText 0 (0 + 1000)) '.' = -1 := exText_chunk_dot
  simp only [chunkEnd, if_pos hcond, Bool.false_eq_true, if_false, hdot]
  norm_num

theorem exText_end_pdf : chunkEnd true exText 1000 0 = 701 := by
  have hcond : 0 + 1000 < exText.length := by
    rw [exText_length]
    norm_num
  have hdot : rfindC (pySlice exText 0 (0 + 1000)) '.' = -1 := exText_chunk_dot
  have hnl : rfindC (pySlice exText 0 (0 + 1000)) '\n' = 700 := exText_chunk_newline
  simp only [chunkEnd, if_pos hcond, if_true, hdot, hnl]
  norm_num
  decide

theorem exText_end_800 : chunkEnd false exText 1000 800 = 1800 := by
  have hcond : ¬ (800 + 1000 < exText.length) := by
    rw [exText_length]
    norm_num
  simp only [chunkEnd, if_neg hcond]

theorem exText_end_501 : chunkEnd true exText 1000 501 = 1501 := by
  have hcond : ¬ (501 + 1000 < exText.length) := by
    rw [exText_length]
    norm_num
  simp only [chunkEnd, if_neg hcond]

theorem exText_get_700 : exText[700]? = some '\n' := by
  rw [exText, List.getElem?_append_right (by rw [List.length_replicate])]
  rw [List.length_replicate, show (700 - 700 : Nat) = 0 from rfl]
  exact List.getElem?_cons_zero

/-- C9, evaluated at the failing input (700 `a`s, a newline, 500 `a`s; no
period).  The newline sits at offset 700 of the first window — past the
midpoint 500 — and the window does not reach the end of the 1201-character
text, yet `rag_service._chunk_text` ends its first window at the arbitrary
offset 1000 (windows `(0,1000), (800,1800)`): it consults only `'.'`,
despite its own comment "Try to break at a newline or period".
`pdf_service.chunk_text` on the same text honours the line boundary and
ends the first window at 701. -/
theorem chunk_newline_ignored :
    exText.length = 1201 ∧
    exText[700]? = some '\n' ∧
    chunkWindows false 1000 200 exText (exText.length + 1) 0 =
      some [(0, 1000), (800, 1800)] ∧
    chunkWindows true 1000 200 exText (exText.length + 1) 0 =
      some [(0, 701), (501, 1501)] := by
  refine ⟨exText_length, exText_get_700, ?_, ?_⟩
  · have s3 : chunkWindows false 1000 200 exText (1199 + 1) 1600 = some [] :=
      chunkWindows_stop _ _ _ _ _ _ (by rw [exText_length]; norm_num)
    have s2 : chunkWindows false 1000 200 exText (1200 + 1) 800 =
        some [(800, 1800)] := by
      have hrec : chunkWindows false 1000 200 exText 1200
          (chunkEnd false exText 1000 800 - 200) = some [] := by
        rw [exText_end_800]
        exact s3
      have hst := chunkWindows_step false 1000 200 exText 1200 800
        (by rw [exText_length]; norm_num) [] hrec
      rw [exText_end_800] at hst
      exact hst
    have s1 : chunkWindows false 1000 200 exText (1201 + 1) 0 =
        some [(0, 1000), (800, 1800)] := by
      have hrec : chunkWindows false 1000 200 exText 1201
          (chunkEnd false exText 1000 0 - 200) = some [(800, 1800)] := by
        rw [exText_end_rag]
        exact s2
      have hst := chunkWindows_step false 1000 200 exText 1201 0
        (by rw [exText_length]; norm_num) [(800, 1800)] hrec
      rw [exText_end_rag] at hst
      exact hst
    rw [exText_length]
    exact s1
  · have s3 : chunkWindows true 1000 200 exText (1199 + 1) 1301 = some [] :=
      chunkWindows_stop _ _ _ _ _ _ (by rw [exText_length]; norm_num)
    have s2 : chunkWindows true 1000 200 exText (1200 + 1) 501 =
        some [(501, 1501)] := by
      have hrec : chunkWindows true 1000 200 exText 1200
          (chunkEnd true exText 1000 501 - 200) = some [] := by
        rw [exText_end_501]
        exact s3
      have hst := chunkWindows_step true 1000 200 exText 1200 501
        (by rw [exText_length]; norm_num) [] hrec
      rw [exText_end_501] at hst
      exact hst
    have s1 : chunkWindows true 1000 200 exText (1201 + 1) 0 =
        some [(0, 701), (501, 1501)] := by
      have hrec : chunkWindows true 1000 200 exText 1201
          (chunkEnd true exText 1000 0 - 200) = some [(501, 1501)] := by
        rw [exText_end_pdf]
        exact s2
      have hst := chunkWindows_step true 1000 200 exText 1201 0
        (by rw [exText_length]; norm_num) [(501, 1501)] hrec
      rw [exText_end_pdf] at hst
      exact hst
    rw [exText_length]
    exact s1
